import Mathlib

set_option maxRecDepth 8192

/-!
Verification of the `chandan_aiops` project scaffolding CLI
(`chandan_aiops/cli.py`) against its specification.

The filesystem is modelled as a finite tree of named entries.  Paths are
lists of components (mirroring `pathlib` joining).  Runtime I/O failures
(permissions, disk full) are modelled by explicit fault parameters: a
`mkdirFault` flag forcing `Path.mkdir` to raise, and a `copyFault` index
making the copy loop of `_copy_templates` raise just before copying the
k-th remaining item.  With `mkdirFault = false` and `copyFault = none`
the model is the fault-free execution of the source.
-/

/-- Filesystem tree node: a regular file with its byte contents, or a
directory with a list of named children. -/
inductive FSTree where
  | file : List Nat → FSTree
  | dir : List (String × FSTree) → FSTree

/-- First child with the given name (directory entries are unique-named
on a real filesystem). -/
def childGet : List (String × FSTree) → String → Option FSTree
  | [], _ => none
  | (m, t) :: rest, n => if m = n then some t else childGet rest n

/-- Replace the first child with the given name, or append a new entry. -/
def childSet : List (String × FSTree) → String → FSTree → List (String × FSTree)
  | [], n, t => [(n, t)]
  | (m, u) :: rest, n, t =>
      if m = n then (n, t) :: rest else (m, u) :: childSet rest n t

/-- Remove the children with the given name (models `shutil.rmtree` on
one entry of a directory). -/
def childRemove (cs : List (String × FSTree)) (n : String) : List (String × FSTree) :=
  cs.filter (fun p => !(p.1 == n))

/-- Resolve a path in the tree. -/
def lookupPath : FSTree → List String → Option FSTree
  | t, [] => some t
  | .file _, _ :: _ => none
  | .dir cs, n :: p =>
      match childGet cs n with
      | some t => lookupPath t p
      | none => none

/-- Model of `Path.exists()`: the check used everywhere in the source;
note it tests presence only, not whether the entry is a file or a
directory. -/
def pathExists (t : FSTree) (p : List String) : Bool :=
  (lookupPath t p).isSome

/-- `hasPrefixPath a b` holds when path `a` is a prefix of path `b`
(so `b` denotes `a` itself or something beneath it). -/
def hasPrefixPath : List String → List String → Bool
  | [], _ => true
  | _ :: _, [] => false
  | a :: as, b :: bs => (a == b) && hasPrefixPath as bs

/-- Render a relative path the way the Python source writes it in its
messages (components joined by `/`). -/
def pathToString : List String → String
  | [] => ""
  | [x] => x
  | x :: xs => x ++ "/" ++ pathToString xs

/-- Model of `project_path.mkdir(parents=True)`: creates the final
directory and any missing ancestors; `none` models the raised exception
(final component already present, or a regular file blocking the
chain). -/
def mkdirParents : FSTree → List String → Option FSTree
  | _, [] => none
  | .file _, _ :: _ => none
  | .dir cs, [n] =>
      match childGet cs n with
      | some _ => none
      | none => some (.dir (childSet cs n (.dir [])))
  | .dir cs, n :: m :: p =>
      match childGet cs n with
      | some (.file _) => none
      | some (.dir cs2) =>
          (mkdirParents (.dir cs2) (m :: p)).map (fun c => .dir (childSet cs n c))
      | none =>
          (mkdirParents (.dir []) (m :: p)).map (fun c => .dir (childSet cs n c))

/-- Model of one copy step of `_copy_templates` (`shutil.copytree` for a
directory entry, `shutil.copy2` for a file entry): writes the given
subtree at the path, whose parent chain must already exist as
directories (`none` models the raised exception otherwise; in the
source the parent is the directory `create_project` just made). -/
def setPathOpt : FSTree → List String → FSTree → Option FSTree
  | _, [], new => some new
  | .file _, _ :: _, _ => none
  | .dir cs, [n], new => some (.dir (childSet cs n new))
  | .dir cs, n :: m :: p, new =>
      match childGet cs n with
      | some t => (setPathOpt t (m :: p) new).map (fun u => .dir (childSet cs n u))
      | none => none

/-- Model of `shutil.rmtree(project_path)`: removes the entry at the
path (no effect when nothing is there). -/
def removePath : FSTree → List String → FSTree
  | t, [] => t
  | .file c, _ :: _ => .file c
  | .dir cs, [n] => .dir (childRemove cs n)
  | .dir cs, n :: m :: p =>
      match childGet cs n with
      | some (.dir cs2) => .dir (childSet cs n (removePath (.dir cs2) (m :: p)))
      | _ => .dir cs

/-- The copy loop of `AIOpsGenerator._copy_templates`: copies each
template child into the destination in iteration order.  `fault = some k`
makes the loop raise just before copying the k-th remaining item; the
error value carries the filesystem state at the point the exception is
raised. -/
def copyItems : FSTree → List String → List (String × FSTree) → Option Nat →
    Except FSTree FSTree
  | fs, _, [], _ => .ok fs
  | fs, _, _ :: _, some 0 => .error fs
  | fs, dest, (n, t) :: rest, fault =>
      match setPathOpt fs (dest ++ [n]) t with
      | none => .error fs
      | some fs2 => copyItems fs2 dest rest (fault.map (fun k => k - 1))

/-- The body of the `try:` block of `AIOpsGenerator.create_project`
(directory creation followed by the template copy); an `error` result
models a raised exception and carries the filesystem state at that
point. -/
def createAttempt (fs : FSTree) (templatePath projectPath : List String)
    (mkdirFault : Bool) (copyFault : Option Nat) : Except FSTree FSTree :=
  if mkdirFault then .error fs
  else
    match mkdirParents fs projectPath with
    | none => .error fs
    | some fs1 =>
        match lookupPath fs1 templatePath with
        | some (.dir tcs) => copyItems fs1 projectPath tcs copyFault
        | _ => .error fs1

/-- Characters rejected by `_validate_project_name` (`invalid_chars` in
the source). -/
def invalid_chars : List Char :=
  ['<', '>', ':', '\"', '|', '?', '*', '\\', '/']

/-- Whitespace characters removed by Python's `str.strip()`: the code
points CPython's `Py_UNICODE_ISSPACE` accepts (Unicode separators plus
the control characters with bidirectional class WS, B or S):
U+0009-U+000D, U+001C-U+001F, U+0020, U+0085, U+00A0, U+1680,
U+2000-U+200A, U+2028, U+2029, U+202F, U+205F and U+3000. -/
def isSpaceChar (c : Char) : Bool :=
  (0x09 ≤ c.toNat && c.toNat ≤ 0x0d) ||
  (0x1c ≤ c.toNat && c.toNat ≤ 0x20) ||
  c.toNat == 0x85 || c.toNat == 0xa0 || c.toNat == 0x1680 ||
  (0x2000 ≤ c.toNat && c.toNat ≤ 0x200a) ||
  c.toNat == 0x2028 || c.toNat == 0x2029 || c.toNat == 0x202f ||
  c.toNat == 0x205f || c.toNat == 0x3000

/-- `not name.strip()`: the name is empty or whitespace-only. -/
def stripIsEmpty (name : String) : Bool :=
  name.toList.all isSpaceChar

/-- Model of `AIOpsGenerator._validate_project_name`. -/
def validateProjectName (name : String) : Bool :=
  if name.toList.isEmpty || stripIsEmpty name then false
  else invalid_chars.all (fun c => !(name.toList.contains c))

/-- The `essential_files` list of `AIOpsGenerator.validate_template`,
as relative paths. -/
def essential_files : List (List String) :=
  [["src", "__init__.py"], ["config.py"], ["main.py"], ["pyproject.toml"],
   ["README.md"]]

/-- The `missing_files` list collected by
`AIOpsGenerator.validate_template` (append-in-loop order). -/
def missingEssentialFiles (fs : FSTree) (templatePath : List String) :
    List (List String) :=
  essential_files.foldl
    (fun acc f => if pathExists fs (templatePath ++ f) then acc else acc ++ [f]) []

/-- Model of `AIOpsGenerator.validate_template`. -/
def validateTemplate (fs : FSTree) (templatePath : List String) : Bool :=
  if !(pathExists fs templatePath) then false
  else (missingEssentialFiles fs templatePath).isEmpty

/-- Model of `AIOpsGenerator.create_project`.  `cwd` is `Path.cwd()`;
`outputDir` is the optional `output_dir`; the result is the returned
boolean together with the filesystem after the call. -/
def createProject (fs : FSTree) (templatePath : List String) (cwd : List String)
    (name : String) (outputDir : Option (List String))
    (mkdirFault : Bool) (copyFault : Option Nat) : Bool × FSTree :=
  if !(validateProjectName name) then (false, fs)
  else
    let projectPath := (outputDir.getD cwd) ++ [name]
    if pathExists fs projectPath then (false, fs)
    else if !(validateTemplate fs templatePath) then (false, fs)
    else
      match createAttempt fs templatePath projectPath mkdirFault copyFault with
      | .ok fs2 => (true, fs2)
      | .error fsE =>
          if pathExists fsE projectPath then (false, removePath fsE projectPath)
          else (false, fsE)

/-- The `required_dirs` list of `validate_command`, as relative paths. -/
def required_dirs : List (List String) :=
  [["data", "raw"], ["src"], ["app"], ["models"], ["tests"]]

/-- The `required_files` list of `validate_command`, as relative paths. -/
def required_files : List (List String) :=
  [["src", "data_ingestion.py"], ["src", "model_builder.py"], ["config.py"],
   ["main.py"], ["pyproject.toml"]]

/-- The `issues` list collected by `validate_command`: one loop over the
required directories, then one over the required files, appending a
message for each path that does not exist. -/
def validateStructureIssues (fs : FSTree) (projectPath : List String) :
    List String :=
  let issues := required_dirs.foldl
    (fun acc d =>
      if pathExists fs (projectPath ++ d) then acc
      else acc ++ ["Missing directory: " ++ pathToString d]) []
  required_files.foldl
    (fun acc f =>
      if pathExists fs (projectPath ++ f) then acc
      else acc ++ ["Missing file: " ++ pathToString f]) issues

/-- The boolean returned by `validate_command` (true when no issues were
collected). -/
def validateStructure (fs : FSTree) (projectPath : List String) : Bool :=
  (validateStructureIssues fs projectPath).isEmpty

/-- The argparse parser built inside `validate_command`: one optional
positional `directory` defaulting to `"."`; `none` models the argparse
error exit (status 2) on unrecognized extra arguments. -/
def parseDirArg : List String → Option String
  | [] => some "."
  | [d] => some d
  | _ => none

/-- `validate_command` as invoked by the process: it re-parses the full
argument vector (`parser.parse_args()` reads `sys.argv[1:]`), then runs
the structure validation; the result is the process exit status.
`resolve` maps a directory string to the path it denotes. -/
def validateCommandRun (fs : FSTree) (resolve : String → List String)
    (argv : List String) : Nat :=
  match parseDirArg argv with
  | none => 2
  | some d => if validateStructure fs (resolve d) then 0 else 1

/-- `main` dispatching the `validate` subcommand: `sys.argv[1:]` is
`"validate"` followed by the subcommand's own arguments, and
`validate_command()` re-parses that full vector. -/
def mainValidate (fs : FSTree) (resolve : String → List String)
    (rest : List String) : Nat :=
  validateCommandRun fs resolve ("validate" :: rest)

/-! ### Basic lemmas about directory-entry operations -/

theorem childGet_childSet_self (cs : List (String × FSTree)) (n : String)
    (t : FSTree) : childGet (childSet cs n t) n = some t := by
  induction cs with
  | nil => simp [childSet, childGet]
  | cons p rest ih =>
      obtain ⟨m, u⟩ := p
      by_cases h : m = n
      · simp [childSet, h, childGet]
      · simp [childSet, h, childGet, ih]

theorem childGet_childSet_ne (cs : List (String × FSTree)) (n m : String)
    (t : FSTree) (h : m ≠ n) : childGet (childSet cs n t) m = childGet cs m := by
  induction cs with
  | nil => simp [childSet, childGet, Ne.symm h]
  | cons p rest ih =>
      obtain ⟨a, u⟩ := p
      by_cases ha : a = n
      · subst ha
        simp [childSet, childGet, Ne.symm h]
      · by_cases hm : a = m
        · simp [childSet, childGet, ha, hm, h]
        · simp [childSet, childGet, ha, hm, ih]

theorem childGet_childRemove_self (cs : List (String × FSTree)) (n : String) :
    childGet (childRemove cs n) n = none := by
  induction cs with
  | nil => simp [childRemove, childGet]
  | cons p rest ih =>
      obtain ⟨a, u⟩ := p
      by_cases h : a = n
      · simpa [childRemove, h] using ih
      · simpa [childRemove, childGet, h] using ih

theorem childGet_childRemove_ne (cs : List (String × FSTree)) (n m : String)
    (h : m ≠ n) : childGet (childRemove cs n) m = childGet cs m := by
  induction cs with
  | nil => simp [childRemove, childGet]
  | cons p rest ih =>
      obtain ⟨a, u⟩ := p
      by_cases ha : a = n
      · subst ha
        simpa [childRemove, childGet, Ne.symm h] using ih
      · by_cases hm : a = m
        · simp [childRemove, childGet, ha, hm, h]
        · simpa [childRemove, childGet, ha, hm] using ih

theorem childSet_append (cs : List (String × FSTree)) (n : String) (t : FSTree)
    (h : n ∉ cs.map Prod.fst) : childSet cs n t = cs ++ [(n, t)] := by
  induction cs with
  | nil => simp [childSet]
  | cons p rest ih =>
      obtain ⟨a, u⟩ := p
      simp only [List.map_cons, List.mem_cons] at h
      push_neg at h
      simp [childSet, Ne.symm h.1, ih h.2]

/-! ### Lemmas about path lookup and path prefixes -/

theorem lookupPath_append (t : FSTree) (a b : List String) :
    lookupPath t (a ++ b) = (lookupPath t a).bind (fun u => lookupPath u b) := by
  induction a generalizing t with
  | nil => simp [lookupPath]
  | cons n a ih =>
      cases t with
      | file c => simp [lookupPath]
      | dir cs =>
          simp only [List.cons_append, lookupPath]
          cases childGet cs n with
          | none => simp
          | some u => simpa using ih u

theorem hasPrefixPath_nil_left (q : List String) : hasPrefixPath [] q = true := by
  simp [hasPrefixPath]

theorem hasPrefixPath_refl (p : List String) : hasPrefixPath p p = true := by
  induction p with
  | nil => simp [hasPrefixPath]
  | cons x xs ih => simp [hasPrefixPath, ih]

theorem hasPrefixPath_append (p e : List String) :
    hasPrefixPath p (p ++ e) = true := by
  induction p with
  | nil => simp [hasPrefixPath]
  | cons x xs ih => simp [hasPrefixPath, ih]

theorem hasPrefixPath_append_singleton (q d : List String) (n : String)
    (h : hasPrefixPath q (d ++ [n]) = true) :
    hasPrefixPath q d = true ∨ q = d ++ [n] := by
  induction d generalizing q with
  | nil =>
      cases q with
      | nil => exact Or.inl rfl
      | cons x xs =>
          simp only [List.nil_append, hasPrefixPath, Bool.and_eq_true, beq_iff_eq] at h
          cases xs with
          | nil => exact Or.inr (by simp [h.1])
          | cons y ys => simp [hasPrefixPath] at h
  | cons a d ih =>
      cases q with
      | nil => exact Or.inl (hasPrefixPath_nil_left _)
      | cons x xs =>
          simp only [List.cons_append, hasPrefixPath, Bool.and_eq_true, beq_iff_eq] at h
          rcases ih xs h.2 with h2 | h2
          · exact Or.inl (by simp [hasPrefixPath, h.1, h2])
          · exact Or.inr (by simp [h.1, h2])

theorem hasPrefixPath_append_left (d : List String) (n : String) (q : List String)
    (h : hasPrefixPath (d ++ [n]) q = true) : hasPrefixPath d q = true := by
  induction d generalizing q with
  | nil => simp [hasPrefixPath]
  | cons a d ih =>
      cases q with
      | nil => simp [hasPrefixPath] at h
      | cons x xs =>
          simp only [List.cons_append, hasPrefixPath, Bool.and_eq_true] at h ⊢
          exact ⟨h.1, ih xs h.2⟩

/-! ### Lemmas about removePath -/

theorem lookupPath_removePath_self (fs : FSTree) (d : List String)
    (hd : d ≠ []) : lookupPath (removePath fs d) d = none := by
  induction d generalizing fs with
  | nil => exact absurd rfl hd
  | cons n rest ih =>
      cases fs with
      | file c =>
          cases rest with
          | nil => simp [removePath, lookupPath]
          | cons m p => simp [removePath, lookupPath]
      | dir cs =>
          cases rest with
          | nil =>
              simp [removePath, lookupPath, childGet_childRemove_self]
          | cons m p =>
              simp only [removePath]
              cases hg : childGet cs n with
              | none => simp [lookupPath, hg]
              | some t =>
                  cases t with
                  | file c => simp [lookupPath, hg]
                  | dir cs2 =>
                      simp only [lookupPath, childGet_childSet_self]
                      exact ih _ (by simp)

theorem lookupPath_removePath_frame (fs : FSTree) (d q : List String)
    (h1 : hasPrefixPath q d = false) (h2 : hasPrefixPath d q = false) :
    lookupPath (removePath fs d) q = lookupPath fs q := by
  induction d generalizing fs q with
  | nil => simp [removePath]
  | cons n rest ih =>
      cases fs with
      | file c =>
          cases rest with
          | nil => simp [removePath]
          | cons m p => simp [removePath]
      | dir cs =>
          cases q with
          | nil => simp [hasPrefixPath] at h1
          | cons x q2 =>
              by_cases hx : x = n
              · subst hx
                simp only [hasPrefixPath, beq_self_eq_true, Bool.true_and] at h1 h2
                cases rest with
                | nil =>
                    cases q2 with
                    | nil => simp [hasPrefixPath] at h1
                    | cons y q3 => simp [hasPrefixPath] at h2
                | cons m p =>
                    simp only [removePath]
                    cases hg : childGet cs x with
                    | none => simp [lookupPath, hg]
                    | some t =>
                        cases t with
                        | file c2 => simp [lookupPath, hg]
                        | dir cs2 =>
                            simp only [lookupPath, childGet_childSet_self, hg]
                            exact ih _ _ h1 h2
              · cases rest with
                | nil =>
                    simp [removePath, lookupPath,
                      childGet_childRemove_ne cs n x (by exact hx)]
                | cons m p =>
                    simp only [removePath]
                    cases hg : childGet cs n with
                    | none => simp [lookupPath, hg]
                    | some t =>
                        cases t with
                        | file c2 => simp [lookupPath]
                        | dir cs2 =>
                            simp [lookupPath,
                              childGet_childSet_ne cs n x _ (by exact hx)]

/-! ### Lemmas about setPathOpt -/

theorem setPathOpt_at_child (d : List String) (fs : FSTree)
    (cs : List (String × FSTree)) (n : String) (t : FSTree)
    (h : lookupPath fs d = some (.dir cs)) :
    ∃ fs2, setPathOpt fs (d ++ [n]) t = some fs2 ∧
      lookupPath fs2 d = some (.dir (childSet cs n t)) := by
  induction d generalizing fs with
  | nil =>
      simp only [lookupPath, Option.some_inj] at h
      subst h
      exact ⟨.dir (childSet cs n t), by simp [setPathOpt], by simp [lookupPath]⟩
  | cons x d2 ih =>
      cases fs with
      | file c => simp [lookupPath] at h
      | dir cs0 =>
          simp only [lookupPath] at h
          cases hg : childGet cs0 x with
          | none => simp [hg] at h
          | some u =>
              rw [hg] at h
              obtain ⟨u2, hu2, hlu2⟩ := ih u h
              refine ⟨.dir (childSet cs0 x u2), ?_, ?_⟩
              · cases hd2 : d2 ++ [n] with
                | nil => simp at hd2
                | cons z zs =>
                    simp only [List.cons_append, setPathOpt, hg, hd2]
                    rw [← hd2, hu2]
                    rfl
              · simp [lookupPath, childGet_childSet_self, hlu2]

theorem setPathOpt_frame (p : List String) (fs t fs2 : FSTree) (q : List String)
    (hset : setPathOpt fs p t = some fs2)
    (h1 : hasPrefixPath q p = false) (h2 : hasPrefixPath p q = false) :
    lookupPath fs2 q = lookupPath fs q := by
  induction p generalizing fs fs2 q with
  | nil => simp [hasPrefixPath] at h2
  | cons n p2 ih =>
      cases fs with
      | file c =>
          simp [setPathOpt] at hset
      | dir cs =>
          cases q with
          | nil => simp [hasPrefixPath] at h1
          | cons x q2 =>
              by_cases hx : x = n
              · subst hx
                simp only [hasPrefixPath, beq_self_eq_true, Bool.true_and] at h1 h2
                cases p2 with
                | nil =>
                    cases q2 with
                    | nil => simp [hasPrefixPath] at h1
                    | cons y q3 =>
                        simp only [setPathOpt, Option.some_inj] at hset
                        subst hset
                        simp only [lookupPath, childGet_childSet_self]
                        cases hg : childGet cs x with
                        | none => simp [hasPrefixPath] at h2
                        | some u => simp [hasPrefixPath] at h2
                | cons m p3 =>
                    simp only [setPathOpt] at hset
                    cases hg : childGet cs x with
                    | none => simp [hg] at hset
                    | some u =>
                        rw [hg] at hset
                        cases hs2 : setPathOpt u (m :: p3) t with
                        | none => simp [hs2] at hset
                        | some u2 =>
                            simp only [hs2, Option.map_some', Option.some_inj] at hset
                            subst hset
                            simp only [lookupPath, childGet_childSet_self, hg]
                            exact ih u u2 q2 hs2 h1 h2
              · cases p2 with
                | nil =>
                    simp only [setPathOpt, Option.some_inj] at hset
                    subst hset
                    simp [lookupPath, childGet_childSet_ne cs n x _ (by exact hx)]
                | cons m p3 =>
                    simp only [setPathOpt] at hset
                    cases hg : childGet cs n with
                    | none => simp [hg] at hset
                    | some u =>
                        rw [hg] at hset
                        cases hs2 : setPathOpt u (m :: p3) t with
                        | none => simp [hs2] at hset
                        | some u2 =>
                            simp only [hs2, Option.map_some', Option.some_inj] at hset
                            subst hset
                            simp [lookupPath,
                              childGet_childSet_ne cs n x _ (by exact hx)]

/-! ### Lemmas about mkdirParents -/

theorem mkdirParents_lookup (fs fs1 : FSTree) (d : List String)
    (h : mkdirParents fs d = some fs1) : lookupPath fs1 d = some (.dir []) := by
  induction d generalizing fs fs1 with
  | nil => simp [mkdirParents] at h
  | cons n rest ih =>
      cases fs with
      | file c => simp [mkdirParents] at h
      | dir cs =>
          cases rest with
          | nil =>
              simp only [mkdirParents] at h
              cases hg : childGet cs n with
              | some u => simp [hg] at h
              | none =>
                  rw [hg] at h
                  simp only [Option.some_inj] at h
                  subst h
                  simp [lookupPath, childGet_childSet_self]
          | cons m p =>
              simp only [mkdirParents] at h
              cases hg : childGet cs n with
              | none =>
                  rw [hg] at h
                  cases hmk : mkdirParents (.dir []) (m :: p) with
                  | none => simp [hmk] at h
                  | some c =>
                      simp only [hmk, Option.map_some', Option.some_inj] at h
                      subst h
                      simp only [lookupPath, childGet_childSet_self]
                      exact ih _ _ hmk
              | some u =>
                  rw [hg] at h
                  cases u with
                  | file c2 => simp at h
                  | dir cs2 =>
                      cases hmk : mkdirParents (.dir cs2) (m :: p) with
                      | none => simp [hmk] at h
                      | some c =>
                          simp only [hmk, Option.map_some', Option.some_inj] at h
                          subst h
                          simp only [lookupPath, childGet_childSet_self]
                          exact ih _ _ hmk

theorem mkdirParents_frame (fs fs1 : FSTree) (d q : List String)
    (h : mkdirParents fs d = some fs1) (hq : hasPrefixPath q d = false) :
    lookupPath fs1 q = lookupPath fs q := by
  induction d generalizing fs fs1 q with
  | nil => simp [mkdirParents] at h
  | cons n rest ih =>
      cases fs with
      | file c => simp [mkdirParents] at h
      | dir cs =>
          cases q with
          | nil => simp [hasPrefixPath] at hq
          | cons x q2 =>
              by_cases hx : x = n
              · subst hx
                simp only [hasPrefixPath, beq_self_eq_true, Bool.true_and] at hq
                cases rest with
                | nil =>
                    simp only [mkdirParents] at h
                    cases hg : childGet cs x with
                    | some u => simp [hg] at h
                    | none =>
                        rw [hg] at h
                        simp only [Option.some_inj] at h
                        subst h
                        cases q2 with
                        | nil => simp [hasPrefixPath] at hq
                        | cons y q3 =>
                            simp [lookupPath, childGet_childSet_self, hg, childGet]
                | cons m p =>
                    simp only [mkdirParents] at h
                    cases hg : childGet cs x with
                    | none =>
                        rw [hg] at h
                        cases hmk : mkdirParents (.dir []) (m :: p) with
                        | none => simp [hmk] at h
                        | some c =>
                            simp only [hmk, Option.map_some', Option.some_inj] at h
                            subst h
                            simp only [lookupPath, childGet_childSet_self, hg]
                            rw [ih _ _ _ hmk hq]
                            cases q2 with
                            | nil => simp [hasPrefixPath] at hq
                            | cons y q3 => simp [lookupPath, childGet]
                    | some u =>
                        rw [hg] at h
                        cases u with
                        | file c2 => simp at h
                        | dir cs2 =>
                            cases hmk : mkdirParents (.dir cs2) (m :: p) with
                            | none => simp [hmk] at h
                            | some c =>
                                simp only [hmk, Option.map_some',
                                  Option.some_inj] at h
                                subst h
                                simp only [lookupPath, childGet_childSet_self, hg]
                                exact ih _ _ _ hmk hq
              · cases rest with
                | nil =>
                    simp only [mkdirParents] at h
                    cases hg : childGet cs n with
                    | some u => simp [hg] at h
                    | none =>
                        rw [hg] at h
                        simp only [Option.some_inj] at h
                        subst h
                        simp [lookupPath, childGet_childSet_ne cs n x _ (by exact hx)]
                | cons m p =>
                    simp only [mkdirParents] at h
                    cases hg : childGet cs n with
                    | none =>
                        rw [hg] at h
                        cases hmk : mkdirParents (.dir []) (m :: p) with
                        | none => simp [hmk] at h
                        | some c =>
                            simp only [hmk, Option.map_some', Option.some_inj] at h
                            subst h
                            simp [lookupPath,
                              childGet_childSet_ne cs n x _ (by exact hx), hg]
                    | some u =>
                        rw [hg] at h
                        cases u with
                        | file c2 => simp at h
                        | dir cs2 =>
                            cases hmk : mkdirParents (.dir cs2) (m :: p) with
                            | none => simp [hmk] at h
                            | some c =>
                                simp only [hmk, Option.map_some',
                                  Option.some_inj] at h
                                subst h
                                simp [lookupPath,
                                  childGet_childSet_ne cs n x _ (by exact hx), hg]

/-! ### Lemmas about the copy loop -/

/-- The filesystem state carried by either outcome of the try block. -/
def exceptState : Except FSTree FSTree → FSTree
  | .ok t => t
  | .error t => t

theorem hasPrefixPath_extend (d q : List String) (n : String)
    (h1 : hasPrefixPath q d = false) (h2 : hasPrefixPath d q = false) :
    hasPrefixPath q (d ++ [n]) = false ∧ hasPrefixPath (d ++ [n]) q = false := by
  constructor
  · cases hc : hasPrefixPath q (d ++ [n]) with
    | false => rfl
    | true =>
        rcases hasPrefixPath_append_singleton q d n hc with hh | hh
        · rw [hh] at h1; exact h1
        · subst hh
          rw [hasPrefixPath_append] at h2
          exact h2
  · cases hc : hasPrefixPath (d ++ [n]) q with
    | false => rfl
    | true =>
        have := hasPrefixPath_append_left d n q hc
        rw [this] at h2
        exact h2

theorem copyItems_frame (items : List (String × FSTree)) (fs : FSTree)
    (d : List String) (fault : Option Nat) (q : List String)
    (h1 : hasPrefixPath q d = false) (h2 : hasPrefixPath d q = false) :
    lookupPath (exceptState (copyItems fs d items fault)) q = lookupPath fs q := by
  induction items generalizing fs fault with
  | nil => simp [copyItems, exceptState]
  | cons p rest ih =>
      obtain ⟨n, t⟩ := p
      have hext := hasPrefixPath_extend d q n h1 h2
      cases fault with
      | some k =>
          cases k with
          | zero => simp [copyItems, exceptState]
          | succ k2 =>
              simp only [copyItems]
              cases hset : setPathOpt fs (d ++ [n]) t with
              | none => simp [exceptState]
              | some fs2 =>
                  rw [ih fs2 _]
                  exact setPathOpt_frame (d ++ [n]) fs t fs2 q hset hext.1 hext.2
      | none =>
          simp only [copyItems]
          cases hset : setPathOpt fs (d ++ [n]) t with
          | none => simp [exceptState]
          | some fs2 =>
              rw [ih fs2 _]
              exact setPathOpt_frame (d ++ [n]) fs t fs2 q hset hext.1 hext.2

theorem copyItems_ok (items : List (String × FSTree)) (fs : FSTree)
    (d : List String) (acc : List (String × FSTree))
    (h : lookupPath fs d = some (.dir acc)) :
    ∃ fs2, copyItems fs d items none = .ok fs2 ∧
      lookupPath fs2 d =
        some (.dir (items.foldl (fun a p => childSet a p.1 p.2) acc)) := by
  induction items generalizing fs acc with
  | nil => exact ⟨fs, by simp [copyItems], by simpa using h⟩
  | cons p rest ih =>
      obtain ⟨n, t⟩ := p
      obtain ⟨fs2, hset, hl⟩ := setPathOpt_at_child d fs acc n t h
      obtain ⟨fs3, hc3, hl3⟩ := ih fs2 (childSet acc n t) hl
      refine ⟨fs3, ?_, ?_⟩
      · simp only [copyItems, hset, Option.map_none']
        exact hc3
      · simpa using hl3

theorem foldl_childSet_eq (items acc : List (String × FSTree))
    (hdisj : ∀ p ∈ items, p.1 ∉ acc.map Prod.fst)
    (hnd : (items.map Prod.fst).Nodup) :
    items.foldl (fun a p => childSet a p.1 p.2) acc = acc ++ items := by
  induction items generalizing acc with
  | nil => simp
  | cons p rest ih =>
      obtain ⟨n, t⟩ := p
      simp only [List.map_cons, List.nodup_cons] at hnd
      have hstep : childSet acc n t = acc ++ [(n, t)] :=
        childSet_append acc n t (hdisj (n, t) (by simp))
      simp only [List.foldl_cons, hstep]
      rw [ih (acc ++ [(n, t)]) ?_ hnd.2]
      · simp
      · intro p hp
        simp only [List.map_append, List.mem_append, List.map_cons]
        rintro (hmem | hmem)
        · exact hdisj p (by simp [hp]) hmem
        · simp only [List.map_nil, List.mem_singleton] at hmem
          exact hnd.1 (by rw [← hmem]; exact List.mem_map_of_mem Prod.fst hp)

/-! ### Lemmas about name validation -/

theorem validateProjectName_eq_false (name : String)
    (h : stripIsEmpty name = true ∨
      ∃ c ∈ invalid_chars, name.toList.contains c = true) :
    validateProjectName name = false := by
  rcases h with h | ⟨c, hc, hcont⟩
  · have hg : (name.toList.isEmpty || stripIsEmpty name) = true := by simp [h]
    unfold validateProjectName
    rw [if_pos hg]
  · have hmem : c ∈ name.toList := by simpa using hcont
    unfold validateProjectName
    by_cases hg : (name.toList.isEmpty || stripIsEmpty name) = true
    · rw [if_pos hg]
    · rw [if_neg hg]
      simp only [List.all_eq_false]
      refine ⟨c, hc, ?_⟩
      simpa using hmem

theorem validateProjectName_eq_true (name : String)
    (h1 : stripIsEmpty name = false)
    (h2 : ∀ c ∈ invalid_chars, name.toList.contains c = false) :
    validateProjectName name = true := by
  have hne : ¬ name.data = [] := by
    intro hl
    rw [stripIsEmpty] at h1
    have hl2 : name.toList = [] := hl
    rw [hl2] at h1
    simp at h1
  unfold validateProjectName
  rw [if_neg (by simp [hne, h1])]
  simp only [List.all_eq_true]
  intro c hc
  have : c ∉ name.toList := by simpa using h2 c hc
  simpa using this

/-! ### Lemmas about the issue-collecting loops -/

theorem foldl_collect {α β : Type} (P : α → Bool) (g : α → β) (l : List α)
    (acc : List β) :
    l.foldl (fun a x => if P x then a else a ++ [g x]) acc
      = acc ++ (l.filter (fun x => !(P x))).map g := by
  induction l generalizing acc with
  | nil => simp
  | cons x rest ih =>
      cases hp : P x with
      | true => simp [hp, ih]
      | false => simp [hp, ih]

theorem validateStructureIssues_eq (fs : FSTree) (pp : List String) :
    validateStructureIssues fs pp =
      (required_dirs.filter (fun d => !(pathExists fs (pp ++ d)))).map
        (fun d => "Missing directory: " ++ pathToString d) ++
      (required_files.filter (fun f => !(pathExists fs (pp ++ f)))).map
        (fun f => "Missing file: " ++ pathToString f) := by
  simp only [validateStructureIssues]
  rw [foldl_collect, foldl_collect]
  simp

theorem missingEssentialFiles_eq (fs : FSTree) (tp : List String) :
    missingEssentialFiles fs tp =
      essential_files.filter (fun f => !(pathExists fs (tp ++ f))) := by
  have h := foldl_collect (fun f => pathExists fs (tp ++ f)) id essential_files []
  simpa [missingEssentialFiles] using h

/-! ### The tree printer (`AIOpsGenerator._print_tree`) -/

/-- Lexicographic comparison of character lists by code point: the order
`sorted()` uses on same-directory `pathlib` entries. -/
def charListLe : List Char → List Char → Bool
  | [], _ => true
  | _ :: _, [] => false
  | a :: as, b :: bs =>
      if a.toNat < b.toNat then true
      else if a.toNat = b.toNat then charListLe as bs
      else false

theorem charListLe_total : ∀ a b, charListLe a b = true ∨ charListLe b a = true := by
  intro a
  induction a with
  | nil => intro b; exact Or.inl rfl
  | cons x xs ih =>
      intro b
      cases b with
      | nil => exact Or.inr rfl
      | cons y ys =>
          rcases Nat.lt_trichotomy x.toNat y.toNat with h | h | h
          · exact Or.inl (by simp [charListLe, h])
          · rcases ih ys with h2 | h2
            · exact Or.inl (by simp [charListLe, h, h2])
            · exact Or.inr (by simp [charListLe, h.symm, h2])
          · exact Or.inr (by simp [charListLe, h])

theorem charListLe_trans : ∀ a b c, charListLe a b = true →
    charListLe b c = true → charListLe a c = true := by
  intro a
  induction a with
  | nil => intro b c _ _; rfl
  | cons x xs ih =>
      intro b c hab hbc
      cases b with
      | nil => simp [charListLe] at hab
      | cons y ys =>
          cases c with
          | nil => simp [charListLe] at hbc
          | cons z zs =>
              simp only [charListLe] at hab hbc ⊢
              by_cases hxy : x.toNat < y.toNat
              · by_cases hyz : y.toNat < z.toNat
                · simp [Nat.lt_trans hxy hyz]
                · simp only [hyz, if_false] at hbc
                  by_cases hyz2 : y.toNat = z.toNat
                  · simp [hyz2 ▸ hxy]
                  · simp [hyz2] at hbc
              · simp only [hxy, if_false] at hab
                by_cases hxy2 : x.toNat = y.toNat
                · simp only [hxy2, if_true] at hab
                  by_cases hyz : y.toNat < z.toNat
                  · simp [hxy2 ▸ hyz]
                  · simp only [hyz, if_false] at hbc
                    by_cases hyz2 : y.toNat = z.toNat
                    · have hxz : ¬ x.toNat < z.toNat := by omega
                      have hxz2 : x.toNat = z.toNat := by omega
                      simp [hxz, hxz2, ih ys zs hab (by simpa [hyz2] using hbc)]
                    · simp [hyz2] at hbc
                · simp [hxy2] at hab

/-- Order on directory entries: by name, code-point lexicographic. -/
def NameLe (a b : String × FSTree) : Prop :=
  charListLe a.1.toList b.1.toList = true

instance : DecidableRel NameLe := fun a b =>
  inferInstanceAs (Decidable (charListLe a.1.toList b.1.toList = true))

instance : IsTotal (String × FSTree) NameLe :=
  ⟨fun a b => charListLe_total a.1.toList b.1.toList⟩

instance : IsTrans (String × FSTree) NameLe :=
  ⟨fun a b c => charListLe_trans a.1.toList b.1.toList c.1.toList⟩

/-- `sorted(path.iterdir())`: the directory entries in ascending name
order. -/
def sortByName (cs : List (String × FSTree)) : List (String × FSTree) :=
  List.insertionSort NameLe cs

theorem perm_sizeOf {l1 l2 : List (String × FSTree)} (h : List.Perm l1 l2) :
    sizeOf l1 = sizeOf l2 := by
  induction h with
  | nil => rfl
  | cons x _ ih => simp [ih]
  | swap x y l => simp; omega
  | trans _ _ ih1 ih2 => omega

theorem sizeOf_sortByName (cs : List (String × FSTree)) :
    sizeOf (sortByName cs) = sizeOf cs :=
  perm_sizeOf (List.perm_insertionSort NameLe cs)

/-- The loop body of `_print_tree`, rendering a list of directory
entries under a given line prefix: connector `└── ` for the last entry,
`├── ` otherwise; directories get a trailing `/` and are recursed into
with the prefix extended by `    ` (last entry) or `│   `. -/
def renderItems (pfx : String) : List (String × FSTree) → List String
  | [] => []
  | (n, t) :: rest =>
      match t with
      | .file _ =>
          (pfx ++ (if rest.isEmpty then "└── " else "├── ") ++ n) ::
            renderItems pfx rest
      | .dir cs =>
          (pfx ++ (if rest.isEmpty then "└── " else "├── ") ++ n ++ "/") ::
            (renderItems (pfx ++ (if rest.isEmpty then "    " else "│   "))
              (sortByName cs) ++ renderItems pfx rest)
termination_by items => sizeOf items
decreasing_by
  all_goals simp_wf
  all_goals simp [sizeOf_sortByName]
  all_goals omega

/-- Model of `AIOpsGenerator._print_tree`: the printed lines for a
directory (called on files it prints nothing; the source only calls it
on directories). -/
def printTree (t : FSTree) (pfx : String) : List String :=
  match t with
  | .file _ => []
  | .dir cs => renderItems pfx (sortByName cs)

/-- One entry's printed block, phrased by index exactly as the source's
loop does (`connector = "└── " if i == len(items) - 1 else "├── "`,
and the continuation column likewise). -/
def levelBlock (pfx : String) (items : List (String × FSTree)) (i : Nat) :
    List String :=
  match items.getD i ("", FSTree.file []) with
  | (n, FSTree.file _) =>
      [pfx ++ (if i + 1 = items.length then "└── " else "├── ") ++ n]
  | (n, FSTree.dir cs2) =>
      (pfx ++ (if i + 1 = items.length then "└── " else "├── ") ++ n ++ "/") ::
        renderItems (pfx ++ (if i + 1 = items.length then "    " else "│   "))
          (sortByName cs2)

theorem levelBlock_succ (pfx : String) (n : String) (t : FSTree)
    (rest : List (String × FSTree)) (i : Nat) :
    levelBlock pfx ((n, t) :: rest) (i + 1) = levelBlock pfx rest i := by
  simp only [levelBlock, List.getD_cons_succ, List.length_cons,
    Nat.add_right_cancel_iff]

theorem renderItems_eq (pfx : String) (items : List (String × FSTree)) :
    renderItems pfx items =
      ((List.range items.length).map (levelBlock pfx items)).flatten := by
  induction items with
  | nil => simp [renderItems]
  | cons p rest ih =>
      obtain ⟨n, t⟩ := p
      rw [List.length_cons, List.range_succ_eq_map, List.map_cons, List.map_map]
      have hsucc : levelBlock pfx ((n, t) :: rest) ∘ Nat.succ =
          levelBlock pfx rest := by
        funext i
        exact levelBlock_succ pfx n t rest i
      rw [hsucc, List.flatten_cons, ← ih]
      cases t with
      | file c =>
          cases rest with
          | nil => simp [renderItems, levelBlock]
          | cons q rest2 =>
              simp [renderItems, levelBlock, List.getD_cons_zero]
      | dir cs =>
          cases rest with
          | nil => simp [renderItems, levelBlock]
          | cons q rest2 =>
              simp [renderItems, levelBlock, List.getD_cons_zero]

/-! ### Concrete fixtures used by witnesses and counterexamples -/

/-- A complete template store: all five essential paths present. -/
def templateTree : FSTree :=
  .dir [("src", .dir [("__init__.py", .file [])]),
        ("config.py", .file [1]),
        ("main.py", .file [2]),
        ("pyproject.toml", .file [3]),
        ("README.md", .file [4])]

/-- A filesystem holding just the template store at `templates`. -/
def fsBase : FSTree := .dir [("templates", templateTree)]

/-- As `fsBase`, but a regular file `blocker` sits where an output
directory would have to be created. -/
def fsBlocked : FSTree :=
  .dir [("templates", templateTree), ("blocker", .file [])]

/-- As `fsBase`, but a file `p` already occupies the destination. -/
def fsTaken : FSTree :=
  .dir [("templates", templateTree), ("p", .file [9])]

/-- A directory with a regular file at the required directory path
`src`. -/
def fsTyped : FSTree := .dir [("src", .file [])]

/-! ### The claims -/

/-- Claim C3: `validate(dir)` returns true iff all five required
directories and all five required files exist under it; otherwise it
returns false and the collected issue list contains one entry for every
missing path, directories first then files, each in the fixed list
order, with no short-circuiting on first failure. -/
theorem c3_structure_validator (fs : FSTree) (pp : List String) :
    (validateStructure fs pp = true ↔
      (∀ d ∈ required_dirs, pathExists fs (pp ++ d) = true) ∧
      (∀ f ∈ required_files, pathExists fs (pp ++ f) = true)) ∧
    validateStructureIssues fs pp =
      (required_dirs.filter (fun d => !(pathExists fs (pp ++ d)))).map
        (fun d => "Missing directory: " ++ pathToString d) ++
      (required_files.filter (fun f => !(pathExists fs (pp ++ f)))).map
        (fun f => "Missing file: " ++ pathToString f) := by
  refine ⟨?_, validateStructureIssues_eq fs pp⟩
  rw [validateStructure, validateStructureIssues_eq fs pp]
  simp [List.filter_eq_nil_iff]

/-- Claim C6: `validate_template` returns true iff the template root and
all five essential relative paths exist; the missing essential paths are
all collected (not just the first). -/
theorem c6_template_validator (fs : FSTree) (tp : List String) :
    (validateTemplate fs tp = true ↔
      pathExists fs tp = true ∧
      ∀ f ∈ essential_files, pathExists fs (tp ++ f) = true) ∧
    (∀ f, f ∈ missingEssentialFiles fs tp ↔
      f ∈ essential_files ∧ pathExists fs (tp ++ f) = false) := by
  constructor
  · rw [validateTemplate, missingEssentialFiles_eq fs tp]
    cases hr : pathExists fs tp with
    | false => simp [List.filter_eq_nil_iff]
    | true => simp [List.filter_eq_nil_iff]
  · intro f
    rw [missingEssentialFiles_eq fs tp]
    simp [List.mem_filter]

/-- Claim C9: both validators test only that each required path exists,
never its type: every check is `pathExists`, a file or a directory at a
checked path equally counts as present, and both validators give
identical results on filesystems with identical existence of every
path. -/
theorem c9_existence_only (fs g : FSTree) (pp tp p : List String)
    (c : List Nat) (cs : List (String × FSTree)) :
    (lookupPath fs p = some (.file c) → pathExists fs p = true) ∧
    (lookupPath fs p = some (.dir cs) → pathExists fs p = true) ∧
    ((∀ q, pathExists fs q = pathExists g q) →
      validateStructure fs pp = validateStructure g pp ∧
      validateStructureIssues fs pp = validateStructureIssues g pp ∧
      validateTemplate fs tp = validateTemplate g tp ∧
      missingEssentialFiles fs tp = missingEssentialFiles g tp) := by
  refine ⟨fun h => by simp [pathExists, h], fun h => by simp [pathExists, h],
    fun hq => ?_⟩
  have hiss : validateStructureIssues fs pp = validateStructureIssues g pp := by
    rw [validateStructureIssues_eq, validateStructureIssues_eq]
    simp only [hq]
  have hmiss : missingEssentialFiles fs tp = missingEssentialFiles g tp := by
    rw [missingEssentialFiles_eq, missingEssentialFiles_eq]
    simp only [hq]
  refine ⟨?_, hiss, ?_, hmiss⟩
  · rw [validateStructure, validateStructure, hiss]
  · rw [validateTemplate, validateTemplate, hq, hmiss]

/-- Witness for C9: a regular file at the required directory path `src`
counts as present for the validator's per-path check. -/
theorem c9_witness : pathExists fsTyped ["src"] = true :=
  (c9_existence_only fsTyped fsTyped [] [] ["src"] [] []).1 rfl

/-- Claim C7 (refuted): the `validate` subcommand re-parses the full
argument vector inside `validate_command`, so with a directory argument
argparse rejects it (exit status 2), and with no argument it validates
a directory literally named `validate` instead of `.`. -/
theorem c7_validate_dispatch (fs : FSTree) (resolve : String → List String)
    (d : String) :
    mainValidate fs resolve [d] = 2 ∧
    mainValidate fs resolve [] =
      (if validateStructure fs (resolve "validate") then 0 else 1) := by
  exact ⟨rfl, rfl⟩

/-- Claim C4: an empty, whitespace-only, or forbidden-character name
makes `create` return false with the filesystem unchanged. -/
theorem c4_invalid_name (fs : FSTree) (tp cwd : List String) (name : String)
    (od : Option (List String)) (mf : Bool) (cf : Option Nat)
    (h : stripIsEmpty name = true ∨
      ∃ c ∈ invalid_chars, name.toList.contains c = true) :
    createProject fs tp cwd name od mf cf = (false, fs) := by
  have hv := validateProjectName_eq_false name h
  simp [createProject, hv]

/-- Witness for C4: a name with a slash and a whitespace-only name both
fail without any filesystem change. -/
theorem c4_witness :
    createProject fsBase ["templates"] [] "a/b" none false none = (false, fsBase) ∧
    createProject fsBase ["templates"] [] "   " none false none = (false, fsBase) := by
  constructor
  · exact c4_invalid_name fsBase ["templates"] [] "a/b" none false none
      (Or.inr ⟨'/', by decide, by decide⟩)
  · exact c4_invalid_name fsBase ["templates"] [] "   " none false none
      (Or.inl (by decide))

/-- The try block never changes any path that is neither beneath the
destination nor an ancestor of it, whichever way it exits. -/
theorem createAttempt_frame (fs : FSTree) (tp d : List String) (mf : Bool)
    (cf : Option Nat) (q : List String)
    (h1 : hasPrefixPath q d = false) (h2 : hasPrefixPath d q = false) :
    lookupPath (exceptState (createAttempt fs tp d mf cf)) q = lookupPath fs q := by
  unfold createAttempt
  cases mf with
  | true => simp [exceptState]
  | false =>
      simp only [Bool.false_eq_true, if_false]
      cases hmk : mkdirParents fs d with
      | none => simp [exceptState]
      | some fs1 =>
          dsimp only
          have hf1 : lookupPath fs1 q = lookupPath fs q :=
            mkdirParents_frame fs fs1 d q hmk h1
          cases hlt : lookupPath fs1 tp with
          | none => simpa [exceptState] using hf1
          | some u =>
              cases u with
              | file c => simpa [exceptState] using hf1
              | dir tcs =>
                  dsimp only
                  rw [copyItems_frame tcs fs1 d cf q h1 h2]
                  exact hf1

/-- Claim C2: when the try block of `create_project` raises (during
directory creation or the copy), `create` returns false and the
destination does not exist afterwards (full rollback). -/
theorem c2_rollback (fs fsE : FSTree) (tp cwd : List String) (name : String)
    (od : Option (List String)) (mf : Bool) (cf : Option Nat)
    (hname : validateProjectName name = true)
    (hnex : pathExists fs ((od.getD cwd) ++ [name]) = false)
    (htpl : validateTemplate fs tp = true)
    (herr : createAttempt fs tp ((od.getD cwd) ++ [name]) mf cf = .error fsE) :
    (createProject fs tp cwd name od mf cf).1 = false ∧
    pathExists (createProject fs tp cwd name od mf cf).2
      ((od.getD cwd) ++ [name]) = false := by
  cases hexE : pathExists fsE ((od.getD cwd) ++ [name]) with
  | false =>
      have hcp : createProject fs tp cwd name od mf cf = (false, fsE) := by
        simp [createProject, hname, hnex, htpl, herr, hexE]
      rw [hcp]
      exact ⟨rfl, hexE⟩
  | true =>
      have hcp : createProject fs tp cwd name od mf cf =
          (false, removePath fsE ((od.getD cwd) ++ [name])) := by
        simp [createProject, hname, hnex, htpl, herr, hexE]
      rw [hcp]
      refine ⟨rfl, ?_⟩
      have := lookupPath_removePath_self fsE ((od.getD cwd) ++ [name]) (by simp)
      simp [pathExists, this]

/-- Witness for C2: with a fault injected before the first copy step,
`create` returns false and the fresh destination is gone again. -/
theorem c2_witness :
    validateProjectName "p" = true ∧
    pathExists fsBase ["p"] = false ∧
    validateTemplate fsBase ["templates"] = true ∧
    (createProject fsBase ["templates"] [] "p" none false (some 0)).1 = false ∧
    pathExists (createProject fsBase ["templates"] [] "p" none false (some 0)).2
      ["p"] = false := by
  have h := c2_rollback fsBase (.dir [("templates", templateTree), ("p", .dir [])])
    ["templates"] [] "p" none false (some 0) (by decide) (by decide) (by decide) rfl
  exact ⟨by decide, by decide, by decide, h.1, h.2⟩

/-- Claim C5 (amended): when the destination already exists, `create`
fails with the filesystem unchanged; and on any invocation every path
that is neither beneath the destination nor an ancestor of it resolves
exactly as before (so the only writes are beneath the destination or
the creation of its previously missing ancestor directories; in
particular a template store disjoint from the destination is never
mutated). -/
theorem c5_frame (fs : FSTree) (tp cwd : List String) (name : String)
    (od : Option (List String)) (mf : Bool) (cf : Option Nat) :
    (pathExists fs ((od.getD cwd) ++ [name]) = true →
      createProject fs tp cwd name od mf cf = (false, fs)) ∧
    (∀ q, hasPrefixPath q ((od.getD cwd) ++ [name]) = false →
      hasPrefixPath ((od.getD cwd) ++ [name]) q = false →
      lookupPath (createProject fs tp cwd name od mf cf).2 q = lookupPath fs q) := by
  constructor
  · intro hex
    cases hv : validateProjectName name with
    | false => simp [createProject, hv]
    | true => simp [createProject, hv, hex]
  · intro q h1 h2
    cases hv : validateProjectName name with
    | false => simp [createProject, hv]
    | true =>
        cases hex : pathExists fs ((od.getD cwd) ++ [name]) with
        | true => simp [createProject, hv, hex]
        | false =>
            cases htp : validateTemplate fs tp with
            | false => simp [createProject, hv, hex, htp]
            | true =>
                have hatf := createAttempt_frame fs tp ((od.getD cwd) ++ [name])
                  mf cf q h1 h2
                cases hatt : createAttempt fs tp ((od.getD cwd) ++ [name]) mf cf with
                | ok fs2 =>
                    have hcp : createProject fs tp cwd name od mf cf = (true, fs2) := by
                      simp [createProject, hv, hex, htp, hatt]
                    rw [hcp]
                    rw [hatt] at hatf
                    simpa [exceptState] using hatf
                | error fsE =>
                    rw [hatt] at hatf
                    simp only [exceptState] at hatf
                    cases hexE : pathExists fsE ((od.getD cwd) ++ [name]) with
                    | false =>
                        have hcp : createProject fs tp cwd name od mf cf =
                            (false, fsE) := by
                          simp [createProject, hv, hex, htp, hatt, hexE]
                        rw [hcp]
                        exact hatf
                    | true =>
                        have hcp : createProject fs tp cwd name od mf cf =
                            (false, removePath fsE ((od.getD cwd) ++ [name])) := by
                          simp [createProject, hv, hex, htp, hatt, hexE]
                        rw [hcp]
                        rw [lookupPath_removePath_frame fsE _ q h1 h2]
                        exact hatf

/-- Counterexample for C5 as stated: creating with `--output out` where
`out` does not yet exist succeeds and brings the path `out` itself into
existence, a write that is not beneath the destination `out/p`. -/
theorem c5_counterexample :
    (createProject fsBase ["templates"] [] "p" (some ["out"]) false none).1 = true ∧
    pathExists fsBase ["out"] = false ∧
    pathExists (createProject fsBase ["templates"] [] "p" (some ["out"]) false
      none).2 ["out"] = true ∧
    hasPrefixPath ["out", "p"] ["out"] = false := by
  decide

/-- Witness for C5 (amended): an occupied destination makes `create`
fail with the filesystem unchanged, and a successful `create` leaves
the template store exactly as it was. -/
theorem c5_witness :
    createProject fsTaken ["templates"] [] "p" none false none = (false, fsTaken) ∧
    lookupPath (createProject fsBase ["templates"] [] "p" none false none).2
      ["templates"] = lookupPath fsBase ["templates"] := by
  constructor
  · exact (c5_frame fsTaken ["templates"] [] "p" none false none).1 (by decide)
  · exact (c5_frame fsBase ["templates"] [] "p" none false none).2 ["templates"]
      (by decide) (by decide)

/-- Shared success path of `create_project`: with a valid name, an
absent destination, a valid template store disjoint from the
destination, a creatable parent chain and well-formed (unique-named)
template entries, `create` returns true and the destination holds
exactly the template's children. -/
theorem createProject_success (fs fs1 : FSTree) (tp cwd : List String)
    (name : String) (od : Option (List String)) (tcs : List (String × FSTree))
    (hname : validateProjectName name = true)
    (hnex : pathExists fs ((od.getD cwd) ++ [name]) = false)
    (htpl : validateTemplate fs tp = true)
    (hmk : mkdirParents fs ((od.getD cwd) ++ [name]) = some fs1)
    (hdisj : hasPrefixPath tp ((od.getD cwd) ++ [name]) = false)
    (htcs : lookupPath fs tp = some (.dir tcs))
    (hnd : (tcs.map Prod.fst).Nodup) :
    (createProject fs tp cwd name od false none).1 = true ∧
    lookupPath (createProject fs tp cwd name od false none).2
      ((od.getD cwd) ++ [name]) = some (.dir tcs) := by
  have hlt : lookupPath fs1 tp = some (.dir tcs) := by
    rw [mkdirParents_frame fs fs1 ((od.getD cwd) ++ [name]) tp hmk hdisj]
    exact htcs
  have hstart : lookupPath fs1 ((od.getD cwd) ++ [name]) = some (.dir []) :=
    mkdirParents_lookup fs fs1 ((od.getD cwd) ++ [name]) hmk
  obtain ⟨fs2, hok, hl2⟩ :=
    copyItems_ok tcs fs1 ((od.getD cwd) ++ [name]) [] hstart
  have hfold : tcs.foldl (fun a p => childSet a p.1 p.2) [] = tcs := by
    have := foldl_childSet_eq tcs [] (by intro p hp; simp) hnd
    simpa using this
  rw [hfold] at hl2
  have hatt : createAttempt fs tp ((od.getD cwd) ++ [name]) false none =
      .ok fs2 := by
    simp [createAttempt, hmk, hlt, hok]
  have hcp : createProject fs tp cwd name od false none = (true, fs2) := by
    simp [createProject, hname, hnex, htpl, hatt]
  rw [hcp]
  exact ⟨rfl, hl2⟩

/-- Counterexample for C1 as stated: a regular file `blocker` given as
the output directory leaves the destination `blocker/p` nonexistent and
the template valid, yet `create` returns false (directory creation
raises `NotADirectoryError`). -/
theorem c1_counterexample :
    validateProjectName "p" = true ∧
    pathExists fsBlocked ["blocker", "p"] = false ∧
    validateTemplate fsBlocked ["templates"] = true ∧
    createProject fsBlocked ["templates"] [] "p" (some ["blocker"]) false none
      = (false, fsBlocked) := by
  refine ⟨by decide, by decide, by decide, ?_⟩
  rfl

/-- Claim C1 (amended): as C1, additionally requiring that the
destination's parent chain can be created (no regular file among its
ancestors) and that the destination does not lie inside the template
root; then `create` returns true and the destination holds exactly the
template root's entries, recursively, contents identical. -/
theorem c1_amended (fs fs1 : FSTree) (tp cwd : List String)
    (name : String) (od : Option (List String)) (tcs : List (String × FSTree))
    (hname : validateProjectName name = true)
    (hnex : pathExists fs ((od.getD cwd) ++ [name]) = false)
    (htpl : validateTemplate fs tp = true)
    (hmk : mkdirParents fs ((od.getD cwd) ++ [name]) = some fs1)
    (hdisj : hasPrefixPath tp ((od.getD cwd) ++ [name]) = false)
    (htcs : lookupPath fs tp = some (.dir tcs))
    (hnd : (tcs.map Prod.fst).Nodup) :
    (createProject fs tp cwd name od false none).1 = true ∧
    lookupPath (createProject fs tp cwd name od false none).2
      ((od.getD cwd) ++ [name]) = some (.dir tcs) :=
  createProject_success fs fs1 tp cwd name od tcs hname hnex htpl hmk hdisj
    htcs hnd

/-- Witness for C1 (amended): creating `p` from the complete template
succeeds and `p` holds the full template tree. -/
theorem c1_witness :
    (createProject fsBase ["templates"] [] "p" none false none).1 = true ∧
    lookupPath (createProject fsBase ["templates"] [] "p" none false none).2
      ["p"] = some templateTree := by
  have h := c1_amended fsBase
    (.dir [("templates", templateTree), ("p", .dir [])])
    ["templates"] [] "p" none
    [("src", .dir [("__init__.py", .file [])]),
     ("config.py", .file [1]),
     ("main.py", .file [2]),
     ("pyproject.toml", .file [3]),
     ("README.md", .file [4])]
    (by decide) (by decide) (by decide) rfl (by decide) rfl (by decide)
  exact ⟨h.1, h.2⟩

/-- Claim C10: the project name is used verbatim (untrimmed) for the
destination: a name with leading or trailing whitespace still validates
provided its trimmed form is non-empty and no character is forbidden,
and the project is created under the whitespace-included name. -/
theorem c10_untrimmed_name (fs fs1 : FSTree) (tp cwd : List String)
    (name : String) (od : Option (List String)) (tcs : List (String × FSTree))
    (h1 : stripIsEmpty name = false)
    (h2 : ∀ c ∈ invalid_chars, name.toList.contains c = false)
    (hnex : pathExists fs ((od.getD cwd) ++ [name]) = false)
    (htpl : validateTemplate fs tp = true)
    (hmk : mkdirParents fs ((od.getD cwd) ++ [name]) = some fs1)
    (hdisj : hasPrefixPath tp ((od.getD cwd) ++ [name]) = false)
    (htcs : lookupPath fs tp = some (.dir tcs))
    (hnd : (tcs.map Prod.fst).Nodup) :
    validateProjectName name = true ∧
    (createProject fs tp cwd name od false none).1 = true ∧
    lookupPath (createProject fs tp cwd name od false none).2
      ((od.getD cwd) ++ [name]) = some (.dir tcs) := by
  have hv := validateProjectName_eq_true name h1 h2
  have h := createProject_success fs fs1 tp cwd name od tcs hv hnex htpl hmk
    hdisj htcs hnd
  exact ⟨hv, h.1, h.2⟩

/-- Witness for C10: the name `" my project "` (leading and trailing
spaces) validates and the project directory is created under exactly
that name. -/
theorem c10_witness :
    validateProjectName " my project " = true ∧
    (createProject fsBase ["templates"] [] " my project " none false none).1
      = true ∧
    lookupPath
      (createProject fsBase ["templates"] [] " my project " none false none).2
      [" my project "] = some templateTree := by
  have h := c10_untrimmed_name fsBase
    (.dir [("templates", templateTree), (" my project ", .dir [])])
    ["templates"] [] " my project " none
    [("src", .dir [("__init__.py", .file [])]),
     ("config.py", .file [1]),
     ("main.py", .file [2]),
     ("pyproject.toml", .file [3]),
     ("README.md", .file [4])]
    (by decide) (by decide) (by decide) (by decide) rfl (by decide) rfl
    (by decide)
  exact ⟨h.1, h.2.1, h.2.2⟩

/-- Claim C8: the tree printer lists each directory's children in
sorted (code-point lexicographic) order; the block of the i-th entry
uses the corner connector exactly when it is the last one and the
branch connector otherwise, subdirectories are recursed into with the
continuation prefix extended by a blank column for the last entry and a
vertical-bar column otherwise, and the last-entry rule is recomputed at
every directory level (the right-hand side applies `printTree` afresh
to each subdirectory). -/
theorem c8_tree_printer (cs : List (String × FSTree)) (pfx : String) :
    List.Sorted NameLe (sortByName cs) ∧
    List.Perm (sortByName cs) cs ∧
    printTree (FSTree.dir cs) pfx =
      ((List.range (sortByName cs).length).map (fun i =>
        match (sortByName cs).getD i ("", FSTree.file []) with
        | (n, FSTree.file _) =>
            [pfx ++ (if i + 1 = (sortByName cs).length then "└── "
              else "├── ") ++ n]
        | (n, FSTree.dir cs2) =>
            (pfx ++ (if i + 1 = (sortByName cs).length then "└── "
              else "├── ") ++ n ++ "/") ::
              printTree (FSTree.dir cs2)
                (pfx ++ (if i + 1 = (sortByName cs).length then "    "
                  else "│   ")))).flatten := by
  refine ⟨List.sorted_insertionSort NameLe cs,
    List.perm_insertionSort NameLe cs, ?_⟩
  have hfun : (fun i =>
      match (sortByName cs).getD i ("", FSTree.file []) with
      | (n, FSTree.file _) =>
          [pfx ++ (if i + 1 = (sortByName cs).length then "└── "
            else "├── ") ++ n]
      | (n, FSTree.dir cs2) =>
          (pfx ++ (if i + 1 = (sortByName cs).length then "└── "
            else "├── ") ++ n ++ "/") ::
            printTree (FSTree.dir cs2)
              (pfx ++ (if i + 1 = (sortByName cs).length then "    "
                else "│   "))) = levelBlock pfx (sortByName cs) := by
    funext i
    unfold levelBlock
    rcases hg : (sortByName cs).getD i ("", FSTree.file []) with ⟨n, t⟩
    cases t with
    | file c => simp [printTree]
    | dir cs2 => simp [printTree]
  rw [hfun]
  simpa [printTree] using renderItems_eq pfx (sortByName cs)
